import Mathlib

/-
Verification development for the mediadupes scan-merge-copy pipeline
(main.go). Each part of the Go program that the properties below talk
about is shallowly embedded as an executable Lean definition:

* string/path helpers model the corresponding Go standard-library
  functions (filepath.Base, filepath.Ext, filepath.Join, filepath.Match,
  strings.Contains, strings.TrimSuffix, strings.ToLower) for the
  ASCII paths the program handles;
* the dedup reducer (deduplicate, main.go:297-360) is embedded as a
  fold over the list of records drained from the results channel;
* the path enumerator (walkFiles, main.go:202-245) is embedded as a
  traversal of an explicit filesystem tree with per-directory
  readability flags, following the visit order and error contract of
  filepath.WalkDir;
* the copy stage (copyFiles, main.go:375-432) is embedded as a fold
  over the survivor list against an explicit destination filesystem
  map, with os.Create modelled as always truncating an existing file;
* the startup control flow of runDedup (main.go:434-491) is embedded
  as a function of the source-existence check and the per-worker
  exiftool initialization results.

Machine integers: Go int64/int fields are modelled as Int (the sizes
and counts involved are far from the 2^63 overflow boundary, which is
therefore not modelled).
-/

/-! ## String helpers (Go standard library models) -/

/-- Does the character list start with the given pattern list
(character-by-character equality)? Helper for the strings.Contains
model. -/
def listHasPre : List Char → List Char → Bool
  | _, [] => true
  | [], _ :: _ => false
  | c :: cs, d :: ds => c == d && listHasPre cs ds

/-- Does the pattern list occur as a contiguous subsequence of the
character list?  Helper for the strings.Contains model. -/
def listContainsSeq : List Char → List Char → Bool
  | [], pat => pat.isEmpty
  | c :: cs, pat => listHasPre (c :: cs) pat || listContainsSeq cs pat

/-- Model of Go strings.Contains. -/
def strContains (s pat : String) : Bool :=
  listContainsSeq s.data pat.data

/-- Model of Go strings.HasSuffix, on the character lists. -/
def strEndsWith (s suf : String) : Bool :=
  listHasPre s.data.reverse suf.data.reverse

/-- Does the first string start with the second?  Used by the
filepath.Rel model. -/
def strStartsWith (s p : String) : Bool :=
  listHasPre s.data p.data

/-- ASCII lowercasing of one character (model of what strings.ToLower
and unicode.ToLower do on the ASCII paths and extensions the program
handles). -/
def lowerChar (c : Char) : Char :=
  if 65 ≤ c.toNat ∧ c.toNat ≤ 90 then Char.ofNat (c.toNat + 32) else c

/-- Model of Go strings.ToLower (ASCII range). -/
def toLowerStr (s : String) : String :=
  String.mk (s.data.map lowerChar)

/-- Model of Go filepath.Base: empty path gives ".", trailing slashes
are dropped, the last slash-separated element is returned, and an
all-slash path gives "/". -/
def baseOf (p : String) : String :=
  if p = "" then "." else
  let r := p.data.reverse.dropWhile (fun c => c = '/')
  if r = [] then "/" else String.mk (r.takeWhile (fun c => c ≠ '/')).reverse

/-- Helper for the filepath.Ext model: walk the reversed character
list; on the first dot before any separator return the suffix from
that dot (accumulated in order), on a separator or the start return
none. -/
def extOfAux : List Char → List Char → Option (List Char)
  | [], _ => none
  | c :: rest, acc =>
    if c = '/' then none
    else if c = '.' then some (c :: acc)
    else extOfAux rest (c :: acc)

/-- Model of Go filepath.Ext: the suffix of the path beginning at the
final dot in the final slash-separated element; empty if there is no
dot. -/
def extOf (p : String) : String :=
  match extOfAux p.data.reverse [] with
  | none => ""
  | some l => String.mk l

/-- Model of Go filepath.Join for two already-clean components (the
only inputs the program feeds it): empty left component yields the
right one, a left component ending in a slash is concatenated
directly, otherwise a slash is inserted. -/
def joinPath (a b : String) : String :=
  if a = "" then b
  else if strEndsWith a "/" then a ++ b
  else a ++ "/" ++ b

/-- Model of Go strings.TrimSuffix. -/
def trimSuffixStr (s suf : String) : String :=
  if strEndsWith s suf then String.mk (s.data.take (s.data.length - suf.data.length))
  else s

/-! ## Glob matching (model of Go filepath.Match)

The program matches each exclusion pattern against a path's base name
with filepath.Match and discards the error, so a malformed pattern
behaves like a non-match.  The matcher below mirrors Go's semantics:
star matches any run of non-separator characters, question mark one
non-separator character, backslash escapes the next pattern character,
and bracket classes support negation with a caret, ranges, and
escapes.  Both recursions are written with an explicit fuel argument;
every recursive call consumes at least one pattern or name character,
so the initial fuel (total input length plus one) always suffices. -/

/-- Model of the character-class element reader in Go filepath.Match:
reads one (possibly escaped) class character, rejecting a bare dash or
closing bracket, exactly like getEsc in Go's match.go. -/
def getEsc : List Char → Option (Char × List Char)
  | [] => none
  | '-' :: _ => none
  | ']' :: _ => none
  | '\\' :: c :: t => some (c, t)
  | '\\' :: [] => none
  | c :: t => some (c, t)

/-- Walk a bracket-class body (after any leading caret): accumulate
whether the tested character fell inside some range, require at least
one range before the closing bracket, and return the rest of the
pattern; none models Go's ErrBadPattern. -/
def classLoop (c : Char) : Nat → List Char → Bool → Bool → Option (Bool × List Char)
  | 0, _, _, _ => none
  | _ + 1, ']' :: rest, matched, seen =>
    if seen then some (matched, rest) else none
  | fuel + 1, chunk, matched, _ =>
    match getEsc chunk with
    | none => none
    | some (lo, rest1) =>
      match rest1 with
      | '-' :: rest2 =>
        match getEsc rest2 with
        | none => none
        | some (hi, rest3) =>
          classLoop c fuel rest3 (matched || (decide (lo ≤ c) && decide (c ≤ hi))) true
      | _ => classLoop c fuel rest1 (matched || c == lo) true

/-- Match one character against a bracket class whose body (after the
opening bracket) is the given pattern rest; returns the match result
and the pattern after the closing bracket, or none for a bad
pattern. -/
def classMatch (c : Char) (ps : List Char) : Option (Bool × List Char) :=
  match ps with
  | '^' :: t =>
    match classLoop c (t.length + 1) t false false with
    | none => none
    | some (m, rest) => some (!m, rest)
  | _ =>
    match classLoop c (ps.length + 1) ps false false with
    | none => none
    | some (m, rest) => some (m, rest)

/-- Fueled recursive matcher behind the filepath.Match model. -/
def globFuel : Nat → List Char → List Char → Bool
  | 0, _, _ => false
  | _ + 1, [], n => n.isEmpty
  | fuel + 1, '*' :: ps, n =>
    globFuel fuel ps n ||
      (match n with
       | [] => false
       | c :: cs => decide (c ≠ '/') && globFuel fuel ('*' :: ps) cs)
  | fuel + 1, '?' :: ps, n =>
    (match n with
     | [] => false
     | c :: cs => decide (c ≠ '/') && globFuel fuel ps cs)
  | fuel + 1, '\\' :: ps, n =>
    (match ps, n with
     | p :: ps', c :: cs => c == p && globFuel fuel ps' cs
     | _, _ => false)
  | fuel + 1, '[' :: ps, n =>
    (match n with
     | [] => false
     | c :: cs =>
       match classMatch c ps with
       | none => false
       | some (ok, rest) => ok && globFuel fuel rest cs)
  | fuel + 1, p :: ps, n =>
    (match n with
     | [] => false
     | c :: cs => c == p && globFuel fuel ps cs)

/-- Model of Go filepath.Match as used by the program (the error of a
malformed pattern is discarded, so it behaves as a non-match). -/
def globMatch (pat name : String) : Bool :=
  globFuel (pat.data.length + name.data.length + 1) pat.data name.data

/-! ## Data model (FileInfo, Stats; main.go:21-29 and 286-295) -/

/-- Embedding of the Go struct FileInfo (main.go:21-29).  The
CreationDate field is carried as an abstract integer timestamp. -/
structure FileInfo where
  path : String
  relPath : String
  size : Int
  hasMeta : Bool
  baseName : String
  creationDate : Int
  isImage : Bool
deriving DecidableEq, Repr

/-- Embedding of the Go struct Stats (main.go:286-295). -/
structure Stats where
  totalSize : Int
  uniqueSize : Int
  totalImages : Int
  totalVideos : Int
  uniqueImages : Int
  uniqueVideos : Int
  withMeta : Int
  withoutMeta : Int
deriving DecidableEq, Repr

/-- The all-zero statistics record the reducer starts from
(stats := Stats{} in main.go:300). -/
def statsInit : Stats := ⟨0, 0, 0, 0, 0, 0, 0, 0⟩

/-! ## Association-list maps

The Go map[string]*FileInfo is modelled as an association list with
unique keys: assignment replaces in place when the key is present and
appends otherwise, and lookup returns the first (hence only)
binding. -/

/-- Lookup in an association list (model of Go map indexing). -/
def lookupKey {α : Type} : List (String × α) → String → Option α
  | [], _ => none
  | (k', v) :: rest, k => if k' = k then some v else lookupKey rest k

/-- Assignment in an association list (model of Go map assignment):
replace the binding in place when the key is present, append
otherwise. -/
def setKey {α : Type} : List (String × α) → String → α → List (String × α)
  | [], k, v => [(k, v)]
  | (k', v') :: rest, k, v =>
    if k' = k then (k, v) :: rest else (k', v') :: setKey rest k v

/-! ## Dedup reducer (deduplicate, main.go:297-360) -/

/-- The replacement test of the reducer (main.go:346-347):
shouldReplace := (info.HasMeta AND NOT existing.HasMeta) OR
(info.HasMeta == existing.HasMeta AND info.Size > existing.Size). -/
def shouldReplace (info existing : FileInfo) : Bool :=
  (info.hasMeta && !existing.hasMeta) ||
    (info.hasMeta == existing.hasMeta && decide (existing.size < info.size))

/-- The unconditional per-record statistics updates of the reducer
(main.go:316-328): total size and the total/metadata counters. -/
def statsAddTotals (s : Stats) (info : FileInfo) : Stats :=
  { s with
    totalSize := s.totalSize + info.size
    totalImages := if info.isImage then s.totalImages + 1 else s.totalImages
    totalVideos := if info.isImage then s.totalVideos else s.totalVideos + 1
    withMeta := if info.hasMeta then s.withMeta + 1 else s.withMeta
    withoutMeta := if info.hasMeta then s.withoutMeta else s.withoutMeta + 1 }

/-- The updateCounters closure of the reducer (main.go:302-312):
adjust the unique image/video counter by plus or minus one. -/
def updateCounters (s : Stats) (info : FileInfo) (add : Bool) : Stats :=
  let delta : Int := if add then 1 else -1
  if info.isImage then { s with uniqueImages := s.uniqueImages + delta }
  else { s with uniqueVideos := s.uniqueVideos + delta }

/-- One iteration of the reducer loop (main.go:314-357) on the current
(map, stats) state. -/
def reduceStep (enableDedup : Bool) (st : List (String × FileInfo) × Stats)
    (info : FileInfo) : List (String × FileInfo) × Stats :=
  let m := st.1
  let s := statsAddTotals st.2 info
  if enableDedup = false then
    (setKey m info.path info,
     updateCounters { s with uniqueSize := s.uniqueSize + info.size } info true)
  else
    match lookupKey m info.baseName with
    | none =>
      (setKey m info.baseName info,
       updateCounters { s with uniqueSize := s.uniqueSize + info.size } info true)
    | some existing =>
      if shouldReplace info existing then
        (setKey m info.baseName info,
         updateCounters
           (updateCounters
             { s with uniqueSize := s.uniqueSize - existing.size + info.size }
             existing false)
           info true)
      else (m, s)

/-- The dedup reducer (deduplicate, main.go:297-360): fold the
per-record step over the sequence of records drained from the results
channel, starting from the empty map and zero statistics. -/
def deduplicate (records : List FileInfo) (enableDedup : Bool) :
    List (String × FileInfo) × Stats :=
  records.foldl (reduceStep enableDedup) ([], statsInit)

/-! ## Metadata extractor / worker (worker, main.go:247-284)

The stat call, the exiftool query and the image-extension table are
the worker's inputs here: `size` stands for stat.Size(), `hasMeta`
and `creationDate` for the result of getCreationDate, and `imageExts`
for the lowercase image-extension set. -/

/-- Model of filepath.Rel as the worker uses it (main.go:256-259):
paths produced by the enumerator lie under the source root, so the
relative path strips the root plus separator; the worker's error
fallback to the base name covers every other shape. -/
def relOf (source path : String) : String :=
  if strStartsWith path (source ++ "/") then
    String.mk (path.data.drop (source.data.length + 1))
  else baseOf path

/-- The FileInfo record the worker builds for one path
(main.go:256-278): relative path, base name with the final extension
stripped, and the image classification by lowercased extension. -/
def workerRecord (imageExts : List String) (source path : String)
    (size : Int) (hasMeta : Bool) (creationDate : Int) : FileInfo :=
  let ext := extOf path
  { path := path
    relPath := relOf source path
    size := size
    hasMeta := hasMeta
    baseName := trimSuffixStr (baseOf path) ext
    creationDate := creationDate
    isImage := imageExts.contains (toLowerStr ext) }

/-! ## Path enumerator (shouldExclude and walkFiles, main.go:190-245) -/

/-- shouldExclude (main.go:190-200): a path is excluded when some
pattern glob-matches its base name or occurs as a substring of the
full path. -/
def shouldExclude (path : String) (excludePatterns : List String) : Bool :=
  excludePatterns.any (fun pattern =>
    globMatch pattern (baseOf path) || strContains path pattern)

/-- A filesystem tree node: a file, or a directory with a readability
flag (whether os.ReadDir on it succeeds) and its entries. -/
inductive FSEntry where
  | file (name : String)
  | dir (name : String) (readable : Bool) (entries : List FSEntry)

/-- The name under which a node appears in its parent directory. -/
def entryName : FSEntry → String
  | .file n => n
  | .dir n _ _ => n

mutual

/-- The paths the recursive walk (filepath.WalkDir with the callback
of main.go:226-244) yields for one node sitting at the given full
path.  A directory is pruned when excluded (SkipDir) and silently
skipped when unreadable (the callback receives the ReadDir error and
returns nil, so nothing below it is visited and the walk continues);
a file is yielded when it is not excluded and its lowercased
extension is accepted. -/
def walkEntryPaths (excl exts : List String) : String → FSEntry → List String
  | path, .file _ =>
    if shouldExclude path excl then []
    else if exts.contains (toLowerStr (extOf path)) then [path]
    else []
  | path, .dir _ readable children =>
    if shouldExclude path excl then []
    else if readable then walkListPaths excl exts path children
    else []

/-- The concatenation of the walks of a directory's entries, in
order. -/
def walkListPaths (excl exts : List String) : String → List FSEntry → List String
  | _, [] => []
  | path, c :: rest =>
    walkEntryPaths excl exts (joinPath path (entryName c)) c ++
      walkListPaths excl exts path rest

end

/-- The observable outcome of one walkFiles call: the paths sent to
the path channel, the error events sent to the progress channel, and
the increment applied to the failedScan counter.  walkFiles
(main.go:202-245) sends only paths: both the non-recursive branch
(os.ReadDir error, line 206-208) and the recursive branch (the WalkDir
callback returns nil on any error, line 227-229) swallow read failures
without an event or a counter update. -/
structure WalkResult where
  paths : List String
  scanErrEvents : List String
  failedScanDelta : Nat
deriving DecidableEq, Repr

/-- walkFiles (main.go:202-245).  The source root is given as an
optional tree: none models a root that os.Lstat / os.ReadDir cannot
even see.  In non-recursive mode only the file entries directly in a
readable root are considered; in recursive mode the tree is walked
with directory pruning. -/
def walkFilesModel (excl exts : List String) (source : String)
    (recursive : Bool) (root : Option FSEntry) : WalkResult :=
  if recursive then
    match root with
    | none => ⟨[], [], 0⟩
    | some e => ⟨walkEntryPaths excl exts source e, [], 0⟩
  else
    match root with
    | some (.dir _ true entries) =>
      ⟨entries.filterMap (fun e =>
        match e with
        | .dir _ _ _ => none
        | .file n =>
          let path := joinPath source n
          if shouldExclude path excl then none
          else if exts.contains (toLowerStr (extOf path)) then some path
          else none), [], 0⟩
    | _ => ⟨[], [], 0⟩

mutual

/-- Companion definition for the enumerator claim, following the
specification's words: the files reachable from the root through
readable, non-excluded directories, before any file-level filtering.
Comparing the walk against a filter of this list separates the
directory-pruning effect from the per-file extension/exclusion
filter. -/
def reachableEntry (excl : List String) : String → FSEntry → List String
  | path, .file _ => [path]
  | path, .dir _ readable children =>
    if shouldExclude path excl then []
    else if readable then reachableList excl path children
    else []

/-- The reachable files of a directory's entries, in order. -/
def reachableList (excl : List String) : String → List FSEntry → List String
  | _, [] => []
  | path, c :: rest =>
    reachableEntry excl (joinPath path (entryName c)) c ++
      reachableList excl path rest

end

/-! ## Copy stage (copyFiles, main.go:375-432) -/

/-- Destination path construction (main.go:397-402): the base name
under the destination root in flatten (one-dir) mode, the record's
relative path under the destination root otherwise. -/
def destPathOf (oneDir : Bool) (dest : String) (fi : FileInfo) : String :=
  if oneDir then joinPath dest (baseOf fi.path)
  else joinPath dest fi.relPath

/-- The observable state of the copy stage: the destination
filesystem as a path-to-content map, and the copied / failedCopy
counters. -/
structure CopyState where
  destFS : List (String × String)
  copied : Nat
  failedCopy : Nat
deriving DecidableEq, Repr

/-- One copy operation (the goroutine body of main.go:384-428).  The
source filesystem gives each readable source path its content; a
missing entry models an os.Open failure (failedCopy increment, no
write).  os.MkdirAll and os.Create always succeed on the destination
side, and os.Create truncates any file already present at the
destination path, so the write unconditionally replaces the map
entry and the copied counter increments. -/
def copyOneFile (srcFS : List (String × String)) (oneDir : Bool) (dest : String)
    (st : CopyState) (fi : FileInfo) : CopyState :=
  match lookupKey srcFS fi.path with
  | none => { st with failedCopy := st.failedCopy + 1 }
  | some content =>
    { st with
      destFS := setKey st.destFS (destPathOf oneDir dest fi) content
      copied := st.copied + 1 }

/-- copyFiles (main.go:375-432) over a survivor list in one
completion order of the bounded-concurrency copies (the claims
evaluated on this model are order-insensitive or pick a concrete
order). -/
def copyFilesModel (srcFS : List (String × String)) (survivors : List FileInfo)
    (dest : String) (oneDir : Bool) (initial : CopyState) : CopyState :=
  survivors.foldl (copyOneFile srcFS oneDir dest) initial

/-! ## Run startup control flow (runDedup, main.go:434-491) -/

/-- What a whole run can come to: the early error return for a
missing source root (main.go:435-437), or normal completion with the
final survivor map, statistics and the error events collected along
the way. -/
inductive RunOutcome where
  | configError (msg : String)
  | completed (survivors : List (String × FileInfo)) (stats : Stats)
      (errorEvents : List String)
deriving DecidableEq, Repr

/-- The startup and completion control flow of runDedup
(main.go:434-491).  `sourceExists` is the os.Stat check on the source
root; `workerInits` records, per launched worker goroutine, whether
exiftool.NewExiftool succeeded (main.go:475-479): a failed worker
sends one error event and returns, while the run itself continues.
`records` is the record stream the workers produce when at least one
of them initialized (any initialized worker drains the path channel);
if every worker fails to initialize, no records are produced and the
reduction runs on an empty stream, after which runDedup still returns
normally. -/
def runDedupModel (sourceExists : Bool) (workerInits : List Bool)
    (records : List FileInfo) (enableDedup : Bool) : RunOutcome :=
  if sourceExists = false then
    .configError "source directory does not exist"
  else
    let initEvents := (workerInits.filter (fun ok => ok = false)).map
      (fun _ => "worker init failed")
    let processed := if workerInits.any (fun ok => ok) then records else []
    let r := deduplicate processed enableDedup
    .completed r.1 r.2 initEvents

/-! ## Size summations for the conservation properties -/

/-- The sum of the sizes of a list of records. -/
def sumSizes (l : List FileInfo) : Int :=
  (l.map (fun r => r.size)).sum

/-- The sum of the sizes of the records held by a survivor map. -/
def mapSizeSum (m : List (String × FileInfo)) : Int :=
  (m.map (fun kv => kv.2.size)).sum

/-! ## Concrete fixtures

Concrete inputs used by the witnesses and counterexamples below.
Extension sets are the program's defaults (main.go:609-610), the
exclusion pattern set is the default from main.go:598. -/

/-- Default image extensions (main.go:609). -/
def exImageExts : List String := [".jpg", ".jpeg", ".png", ".heic", ".heif"]

/-- Default accepted extensions: images plus videos (main.go:609-610). -/
def exValidExts : List String :=
  [".jpg", ".jpeg", ".png", ".heic", ".heif", ".mp4", ".mov", ".avi", ".mkv", ".m4v"]

/-- Default exclusion patterns (main.go:598). -/
def exDefaultExcl : List String := [".*"]

/-- The source tree of the spec's exclusion example: a root holding
the directories .git (with x.jpg inside) and photos (with y.jpg
inside), all readable. -/
def exTree : FSEntry :=
  .dir "" true
    [.dir ".git" true [.file "x.jpg"],
     .dir "photos" true [.file "y.jpg"]]

/-- A metadata-less 100-byte record in group "a". -/
def exTieA : FileInfo := ⟨"/x/a.jpg", "x/a.jpg", 100, false, "a", 0, true⟩

/-- A second metadata-less 100-byte record in group "a" with a
different absolute path: an exact tie with exTieA. -/
def exTieB : FileInfo := ⟨"/y/a.jpg", "y/a.jpg", 100, false, "a", 0, true⟩

/-- A 10-byte record in group "b" (no exact tie with exBig). -/
def exSmall : FileInfo := ⟨"/x/b.jpg", "x/b.jpg", 10, false, "b", 0, true⟩

/-- A 20-byte record in group "b" (no exact tie with exSmall). -/
def exBig : FileInfo := ⟨"/y/b.jpg", "y/b.jpg", 20, false, "b", 0, true⟩

/-- The survivor a group "img" already holds in the C1 witness. -/
def exExisting : FileInfo := ⟨"/a/img.jpg", "a/img.jpg", 5, false, "img", 0, true⟩

/-- The record arriving for group "img" in the C1 witness. -/
def exIncoming : FileInfo := ⟨"/b/img.jpg", "b/img.jpg", 9, false, "img", 0, true⟩

/-- The worker record for /src/a/img.jpg (sizes and metadata chosen
arbitrarily). -/
def exCopyA : FileInfo := workerRecord exImageExts "/src" "/src/a/img.jpg" 3 false 0

/-- The worker record for /src/b/img.jpg: a distinct file whose base
name collides with exCopyA's in flatten mode. -/
def exCopyB : FileInfo := workerRecord exImageExts "/src" "/src/b/img.jpg" 4 false 0

/-- The worker record for /src/a/b/img.jpg from the spec's copy-path
example. -/
def exNested : FileInfo := workerRecord exImageExts "/src" "/src/a/b/img.jpg" 7 false 0

/-- The worker record for /src/c/img2.jpg from the spec's copy-path
example. -/
def exNested2 : FileInfo := workerRecord exImageExts "/src" "/src/c/img2.jpg" 8 false 0

/-- The worker record for /p/IMG_001.JPG (upper-case name and
extension). -/
def exUpper : FileInfo := workerRecord exImageExts "/p" "/p/IMG_001.JPG" 1 false 0

/-- The worker record for /p/img_001.jpg (lower-case twin of
exUpper). -/
def exLower : FileInfo := workerRecord exImageExts "/p" "/p/img_001.jpg" 2 false 0

/-! ## Lemmas about the replacement rule -/

/-- shouldReplace holds exactly when the incoming record strictly
improves on the existing one in the lexicographic
(has-metadata, size) order. -/
theorem shouldReplace_iff (a b : FileInfo) :
    shouldReplace a b = true ↔
      ((a.hasMeta = true ∧ b.hasMeta = false) ∨
        (a.hasMeta = b.hasMeta ∧ b.size < a.size)) := by
  simp [shouldReplace, Bool.or_eq_true, Bool.and_eq_true, decide_eq_true_iff,
    Bool.not_eq_true']

/-- A record never strictly improves on itself. -/
theorem shouldReplace_irrefl (a : FileInfo) : shouldReplace a a = false := by
  simp [shouldReplace]

/-- Strict improvement is transitive. -/
theorem shouldReplace_trans {a b c : FileInfo}
    (hab : shouldReplace a b = true) (hbc : shouldReplace b c = true) :
    shouldReplace a c = true := by
  rw [shouldReplace_iff] at hab hbc ⊢
  rcases hab with ⟨ha, hb⟩ | ⟨hab, hs⟩ <;> rcases hbc with ⟨hb', hc⟩ | ⟨hbc, hs'⟩
  · exact Or.inl ⟨ha, hc⟩
  · exact Or.inl ⟨ha, hbc ▸ hb⟩
  · exact Or.inl ⟨hab ▸ hb', hc⟩
  · exact Or.inr ⟨hab.trans hbc, hs'.trans hs⟩

/-- Two records neither of which strictly improves on the other agree
on metadata status and size (an exact tie). -/
theorem shouldReplace_tie {a b : FileInfo}
    (hab : shouldReplace a b = false) (hba : shouldReplace b a = false) :
    a.hasMeta = b.hasMeta ∧ a.size = b.size := by
  cases ha : a.hasMeta <;> cases hb : b.hasMeta <;>
      simp [shouldReplace, ha, hb] at hab hba ⊢ <;> omega

/-! ## Lemmas about the association-list map -/

/-- Lookup after assignment: the assigned key reads back the new
value, every other key is untouched. -/
theorem lookupKey_setKey {α : Type} (m : List (String × α)) (k k' : String) (v : α) :
    lookupKey (setKey m k v) k' = if k' = k then some v else lookupKey m k' := by
  induction m with
  | nil =>
    by_cases h : k = k'
    · subst h; simp [setKey, lookupKey]
    · simp only [setKey, lookupKey]
      rw [if_neg h, if_neg (fun hh => h hh.symm)]
  | cons kv rest ih =>
    obtain ⟨k₀, v₀⟩ := kv
    by_cases h₀ : k₀ = k
    · subst h₀
      by_cases h : k₀ = k'
      · simp [setKey, lookupKey, h]
      · simp [setKey, lookupKey, h, Ne.symm h]
    · by_cases h : k₀ = k'
      · have hk : ¬ k' = k := fun hh => h₀ (h.trans hh)
        simp [setKey, lookupKey, h₀, h, hk]
      · simp [setKey, lookupKey, h₀, h, ih]

/-! ## C1: the replacement rule of the reducer -/

/-- Claim C1: with deduplication enabled, when the incoming record's
group key already has a survivor, the survivor after the fold step is
the incoming record exactly when (incoming has metadata and the
existing one does not) or (both have the same metadata status and the
incoming size is strictly greater), and otherwise the existing
survivor; in particular on an exact tie (equal metadata status and
equal size) the existing survivor is kept unchanged. -/
theorem dedup_replacement_rule (m : List (String × FileInfo)) (s : Stats)
    (info existing : FileInfo) (h : lookupKey m info.baseName = some existing) :
    (lookupKey (reduceStep true (m, s) info).1 info.baseName =
        some (if shouldReplace info existing then info else existing)) ∧
    (shouldReplace info existing = true ↔
        ((info.hasMeta = true ∧ existing.hasMeta = false) ∨
          (info.hasMeta = existing.hasMeta ∧ existing.size < info.size))) ∧
    (info.hasMeta = existing.hasMeta → info.size = existing.size →
        lookupKey (reduceStep true (m, s) info).1 info.baseName = some existing) := by
  refine ⟨?_, shouldReplace_iff info existing, ?_⟩
  · by_cases hr : shouldReplace info existing = true
    · simp [reduceStep, h, hr, lookupKey_setKey]
    · rw [Bool.not_eq_true] at hr
      simp [reduceStep, h, hr]
  · intro hm hs
    have hr : shouldReplace info existing = false := by
      simp [shouldReplace, hm, hs]
    simp [reduceStep, h, hr]

/-- Witness for C1 at a concrete state: the group "img" holds a
5-byte survivor and a 9-byte record with the same metadata status
arrives. -/
theorem dedup_replacement_rule_witness :
    lookupKey [("img", exExisting)] exIncoming.baseName = some exExisting ∧
    ((lookupKey (reduceStep true ([("img", exExisting)], statsInit) exIncoming).1
          exIncoming.baseName =
        some (if shouldReplace exIncoming exExisting then exIncoming else exExisting)) ∧
      (shouldReplace exIncoming exExisting = true ↔
        ((exIncoming.hasMeta = true ∧ exExisting.hasMeta = false) ∨
          (exIncoming.hasMeta = exExisting.hasMeta ∧
            exExisting.size < exIncoming.size))) ∧
      (exIncoming.hasMeta = exExisting.hasMeta → exIncoming.size = exExisting.size →
        lookupKey (reduceStep true ([("img", exExisting)], statsInit) exIncoming).1
            exIncoming.baseName =
          some exExisting)) :=
  ⟨by decide,
   dedup_replacement_rule [("img", exExisting)] statsInit exIncoming exExisting
     (by decide)⟩

/-! ## Characterizing the dedup-enabled survivor map -/

/-- Appending one record to the input stream applies one reducer
step to the fold result. -/
theorem dedup_snoc (l : List FileInfo) (x : FileInfo) (b : Bool) :
    deduplicate (l ++ [x]) b = reduceStep b (deduplicate l b) x := by
  simp [deduplicate, List.foldl_append]

/-- A reducer step for one record leaves every other group key's
survivor untouched. -/
theorem reduceStep_lookup_other (st : List (String × FileInfo) × Stats)
    (x : FileInfo) (k : String) (hk : ¬ k = x.baseName) :
    lookupKey (reduceStep true st x).1 k = lookupKey st.1 k := by
  rcases hm : lookupKey st.1 x.baseName with _ | e
  · simp [reduceStep, hm, lookupKey_setKey, hk]
  · by_cases hr : shouldReplace x e = true <;>
      simp [reduceStep, hm, hr, lookupKey_setKey, hk]

/-- Characterization of the dedup-enabled survivor map: a group key
is absent exactly when no input record carries it, and any survivor
is an input record of that group on which no input record of the
group strictly improves (the fold keeps a maximal record of each
group). -/
theorem dedup_lookup_char (l : List FileInfo) :
    ∀ k, (lookupKey (deduplicate l true).1 k = none ↔ ∀ r ∈ l, r.baseName ≠ k) ∧
      (∀ r, lookupKey (deduplicate l true).1 k = some r →
        r ∈ l ∧ r.baseName = k ∧
          ∀ x ∈ l, x.baseName = k → shouldReplace x r = false) := by
  induction l using List.reverseRecOn with
  | nil => intro k; simp [deduplicate, lookupKey]
  | append_singleton l x ih =>
    intro k
    rw [dedup_snoc]
    by_cases hk : k = x.baseName
    · subst hk
      rcases hm : lookupKey (deduplicate l true).1 x.baseName with _ | e
      · have hset : (reduceStep true (deduplicate l true) x).1 =
            setKey (deduplicate l true).1 x.baseName x := by
          simp [reduceStep, hm]
        rw [hset, lookupKey_setKey, if_pos rfl]
        refine ⟨⟨fun h => by simp at h, fun h => absurd rfl (h x (by simp))⟩, ?_⟩
        intro r hsome
        have hx : x = r := by simpa using hsome
        rw [← hx]
        refine ⟨by simp, rfl, fun r' hr' hk' => ?_⟩
        rcases List.mem_append.mp hr' with h' | h'
        · exact absurd hk' ((ih x.baseName).1.mp hm r' h')
        · have hrx : r' = x := by simpa using h'
          rw [hrx]; exact shouldReplace_irrefl x
      · obtain ⟨he1, he2, he3⟩ := (ih x.baseName).2 e hm
        by_cases hrep : shouldReplace x e = true
        · have hset : (reduceStep true (deduplicate l true) x).1 =
              setKey (deduplicate l true).1 x.baseName x := by
            simp [reduceStep, hm, hrep]
          rw [hset, lookupKey_setKey, if_pos rfl]
          refine ⟨⟨fun h => by simp at h, fun h => absurd rfl (h x (by simp))⟩, ?_⟩
          intro r hsome
          have hx : x = r := by simpa using hsome
          rw [← hx]
          refine ⟨by simp, rfl, fun r' hr' hk' => ?_⟩
          rcases List.mem_append.mp hr' with h' | h'
          · cases hb : shouldReplace r' x with
            | false => rfl
            | true =>
              have ht := shouldReplace_trans hb hrep
              rw [he3 r' h' hk'] at ht
              simp at ht
          · have hrx : r' = x := by simpa using h'
            rw [hrx]; exact shouldReplace_irrefl x
        · have hkeep : (reduceStep true (deduplicate l true) x).1 =
              (deduplicate l true).1 := by
            simp [reduceStep, hm, hrep]
          rw [hkeep]
          refine ⟨⟨fun h => by rw [hm] at h; exact Option.noConfusion h,
            fun h => absurd rfl (h x (by simp))⟩, ?_⟩
          intro r hsome
          rw [hm] at hsome
          have hx : e = r := by simpa using hsome
          rw [← hx]
          refine ⟨List.mem_append_left _ he1, he2, fun r' hr' hk' => ?_⟩
          rcases List.mem_append.mp hr' with h' | h'
          · exact he3 r' h' hk'
          · have hrx : r' = x := by simpa using h'
            rw [hrx]
            rw [Bool.not_eq_true] at hrep
            exact hrep
    · rw [reduceStep_lookup_other _ _ _ hk]
      obtain ⟨ihn, ihs⟩ := ih k
      refine ⟨?_, ?_⟩
      · rw [ihn]
        constructor
        · intro h r hr
          rcases List.mem_append.mp hr with h' | h'
          · exact h r h'
          · have hrx : r = x := by simpa using h'
            rw [hrx]; exact fun hh => hk hh.symm
        · intro h r hr; exact h r (List.mem_append_left _ hr)
      · intro r hsome
        obtain ⟨h1, h2, h3⟩ := ihs r hsome
        refine ⟨List.mem_append_left _ h1, h2, fun r' hr' hk' => ?_⟩
        rcases List.mem_append.mp hr' with h' | h'
        · exact h3 r' h' hk'
        · have hrx : r' = x := by simpa using h'
          rw [hrx] at hk'; exact absurd hk'.symm hk

/-! ## C2: order independence of the reduction -/

/-- Counterexample to claim C2 as stated: two records of group "a"
with equal metadata status, equal size and different absolute paths
(an exact tie) yield different survivors for the two arrival orders,
so the final SurvivorMap is not identical across permutations. -/
theorem dedup_order_dependent_on_tie :
    lookupKey (deduplicate [exTieA, exTieB] true).1 "a" ≠
      lookupKey (deduplicate [exTieB, exTieA] true).1 "a" := by decide

/-- Claim C2 (amended): reduction with dedup enabled is
order-independent provided no two distinct input records of the same
group are an exact tie (equal metadata status and equal size): any
two permutations of the records produce the same survivor for every
group key. -/
theorem dedup_order_independent (l₁ l₂ : List FileInfo) (hp : l₁.Perm l₂)
    (hnt : ∀ r₁ ∈ l₁, ∀ r₂ ∈ l₁, r₁.baseName = r₂.baseName →
      r₁.hasMeta = r₂.hasMeta → r₁.size = r₂.size → r₁ = r₂) (k : String) :
    lookupKey (deduplicate l₁ true).1 k = lookupKey (deduplicate l₂ true).1 k := by
  obtain ⟨h1n, h1s⟩ := dedup_lookup_char l₁ k
  obtain ⟨h2n, h2s⟩ := dedup_lookup_char l₂ k
  rcases e1 : lookupKey (deduplicate l₁ true).1 k with _ | r₁ <;>
    rcases e2 : lookupKey (deduplicate l₂ true).1 k with _ | r₂
  · rfl
  · obtain ⟨m2, k2, _⟩ := h2s r₂ e2
    exact absurd k2 (h1n.mp e1 r₂ (hp.mem_iff.mpr m2))
  · obtain ⟨m1, k1, _⟩ := h1s r₁ e1
    exact absurd k1 (h2n.mp e2 r₁ (hp.mem_iff.mp m1))
  · obtain ⟨m1, k1, max1⟩ := h1s r₁ e1
    obtain ⟨m2, k2, max2⟩ := h2s r₂ e2
    have hm2 : r₂ ∈ l₁ := hp.mem_iff.mpr m2
    have h12 : shouldReplace r₂ r₁ = false := max1 r₂ hm2 k2
    have h21 : shouldReplace r₁ r₂ = false := max2 r₁ (hp.mem_iff.mp m1) k1
    obtain ⟨hmeta, hsize⟩ := shouldReplace_tie h21 h12
    rw [hnt r₁ m1 r₂ hm2 (k1.trans k2.symm) hmeta hsize]

/-- Witness for C2 (amended) on a concrete two-record group with
distinct sizes, compared across its two arrival orders. -/
theorem dedup_order_independent_witness :
    [exSmall, exBig].Perm [exBig, exSmall] ∧
    lookupKey (deduplicate [exSmall, exBig] true).1 "b" =
      lookupKey (deduplicate [exBig, exSmall] true).1 "b" :=
  ⟨List.Perm.swap exBig exSmall [],
   dedup_order_independent [exSmall, exBig] [exBig, exSmall]
     (List.Perm.swap exBig exSmall []) (by decide) "b"⟩

/-! ## Conservation lemmas (C3) -/

/-- updateCounters leaves the total-size field alone. -/
theorem updateCounters_totalSize (s : Stats) (x : FileInfo) (a : Bool) :
    (updateCounters s x a).totalSize = s.totalSize := by
  by_cases hi : x.isImage <;> simp [updateCounters, hi]

/-- updateCounters leaves the unique-size field alone. -/
theorem updateCounters_uniqueSize (s : Stats) (x : FileInfo) (a : Bool) :
    (updateCounters s x a).uniqueSize = s.uniqueSize := by
  by_cases hi : x.isImage <;> simp [updateCounters, hi]

/-- The unconditional totals update leaves the unique-size field
alone. -/
theorem statsAddTotals_uniqueSize (s : Stats) (x : FileInfo) :
    (statsAddTotals s x).uniqueSize = s.uniqueSize := by
  simp [statsAddTotals]

/-- The unconditional totals update adds the record's size to the
total-size field. -/
theorem statsAddTotals_totalSize (s : Stats) (x : FileInfo) :
    (statsAddTotals s x).totalSize = s.totalSize + x.size := by
  simp [statsAddTotals]

/-- Assigning a fresh key adds the new record's size to the map's
size sum. -/
theorem mapSizeSum_setKey_new {m : List (String × FileInfo)} {k : String}
    {v : FileInfo} (h : lookupKey m k = none) :
    mapSizeSum (setKey m k v) = mapSizeSum m + v.size := by
  induction m with
  | nil => simp [setKey, mapSizeSum]
  | cons kv rest ih =>
    obtain ⟨k₀, v₀⟩ := kv
    by_cases h₀ : k₀ = k
    · simp [lookupKey, h₀] at h
    · simp only [lookupKey, if_neg h₀] at h
      simp [setKey, h₀, mapSizeSum] at ih ⊢
      rw [ih h]
      ring

/-- Overwriting a present key swaps the old record's size for the new
one's in the map's size sum. -/
theorem mapSizeSum_setKey_replace {m : List (String × FileInfo)} {k : String}
    {v e : FileInfo} (h : lookupKey m k = some e) :
    mapSizeSum (setKey m k v) = mapSizeSum m - e.size + v.size := by
  induction m with
  | nil => simp [lookupKey] at h
  | cons kv rest ih =>
    obtain ⟨k₀, v₀⟩ := kv
    by_cases h₀ : k₀ = k
    · simp only [lookupKey, if_pos h₀] at h
      have hv : v₀ = e := by simpa using h
      rw [hv]
      simp [setKey, h₀, mapSizeSum]
      ring
    · simp only [lookupKey, if_neg h₀] at h
      simp [setKey, h₀, mapSizeSum] at ih ⊢
      rw [ih h]
      ring

/-- Every reducer step adds the incoming record's size to the running
total size, in either mode. -/
theorem reduceStep_totalSize (b : Bool) (st : List (String × FileInfo) × Stats)
    (x : FileInfo) :
    (reduceStep b st x).2.totalSize = st.2.totalSize + x.size := by
  cases b
  · simp [reduceStep, updateCounters_totalSize, statsAddTotals_totalSize]
  · rcases hm : lookupKey st.1 x.baseName with _ | e
    · simp [reduceStep, hm, updateCounters_totalSize, statsAddTotals_totalSize]
    · by_cases hr : shouldReplace x e = true
      · simp [reduceStep, hm, hr, updateCounters_totalSize, statsAddTotals_totalSize]
      · simp [reduceStep, hm, hr, statsAddTotals_totalSize]

/-- Total size after the fold: initial total plus the sum of all
reduced sizes, in either mode. -/
theorem totalSize_fold (l : List FileInfo) (b : Bool) :
    ∀ st : List (String × FileInfo) × Stats,
      (l.foldl (reduceStep b) st).2.totalSize = st.2.totalSize + sumSizes l := by
  induction l with
  | nil => intro st; simp [sumSizes]
  | cons x rest ih =>
    intro st
    rw [List.foldl_cons, ih, reduceStep_totalSize]
    simp [sumSizes]
    ring

/-- With dedup enabled, the fold preserves the invariant that the
unique size equals the survivor map's size sum. -/
theorem uniqueSize_fold_true (l : List FileInfo) :
    ∀ st : List (String × FileInfo) × Stats, st.2.uniqueSize = mapSizeSum st.1 →
      (l.foldl (reduceStep true) st).2.uniqueSize =
        mapSizeSum (l.foldl (reduceStep true) st).1 := by
  induction l with
  | nil => intro st h; exact h
  | cons x rest ih =>
    intro st h
    rw [List.foldl_cons]
    apply ih
    rcases hm : lookupKey st.1 x.baseName with _ | e
    · have h1 : (reduceStep true st x).1 = setKey st.1 x.baseName x := by
        simp [reduceStep, hm]
      have h2 : (reduceStep true st x).2.uniqueSize = st.2.uniqueSize + x.size := by
        simp [reduceStep, hm, updateCounters_uniqueSize, statsAddTotals_uniqueSize]
      rw [h1, h2, mapSizeSum_setKey_new hm, h]
    · by_cases hr : shouldReplace x e = true
      · have h1 : (reduceStep true st x).1 = setKey st.1 x.baseName x := by
          simp [reduceStep, hm, hr]
        have h2 : (reduceStep true st x).2.uniqueSize =
            st.2.uniqueSize - e.size + x.size := by
          simp [reduceStep, hm, hr, updateCounters_uniqueSize,
            statsAddTotals_uniqueSize]
        rw [h1, h2, mapSizeSum_setKey_replace hm, h]
      · have h1 : reduceStep true st x = (st.1, statsAddTotals st.2 x) := by
          simp [reduceStep, hm, hr]
        rw [h1]
        simpa [statsAddTotals_uniqueSize] using h

/-- With dedup disabled, the fold preserves the unique-size invariant
as long as no incoming record's path is already a key and the
remaining paths are pairwise distinct. -/
theorem uniqueSize_fold_false (l : List FileInfo) :
    ∀ st : List (String × FileInfo) × Stats, st.2.uniqueSize = mapSizeSum st.1 →
      (∀ r ∈ l, lookupKey st.1 r.path = none) →
      l.Pairwise (fun a c => a.path ≠ c.path) →
      (l.foldl (reduceStep false) st).2.uniqueSize =
        mapSizeSum (l.foldl (reduceStep false) st).1 := by
  induction l with
  | nil => intro st h _ _; exact h
  | cons x rest ih =>
    intro st h hnone hpair
    rw [List.foldl_cons]
    have hx : lookupKey st.1 x.path = none := hnone x (by simp)
    have h1 : (reduceStep false st x).1 = setKey st.1 x.path x := by
      simp [reduceStep]
    have h2 : (reduceStep false st x).2.uniqueSize = st.2.uniqueSize + x.size := by
      simp [reduceStep, updateCounters_uniqueSize, statsAddTotals_uniqueSize]
    apply ih
    · rw [h1, h2, mapSizeSum_setKey_new hx, h]
    · intro r hr
      rw [h1, lookupKey_setKey]
      have hne : x.path ≠ r.path := (List.pairwise_cons.mp hpair).1 r hr
      rw [if_neg (fun hh => hne hh.symm)]
      exact hnone r (List.mem_cons_of_mem _ hr)
    · exact (List.pairwise_cons.mp hpair).2

/-! ## C3: conservation of total and unique sizes -/

/-- Counterexample to claim C3 as stated: with dedup disabled and a
record stream that repeats the same absolute path, the unique size
double-counts the record while the survivor map holds it once, so
uniqueSize differs from the map's size sum. -/
theorem stats_conservation_cex :
    (deduplicate [exTieA, exTieA] false).2.uniqueSize ≠
      mapSizeSum (deduplicate [exTieA, exTieA] false).1 := by decide

/-- Claim C3 (amended): after reducing any sequence of records,
totalSize is the sum of all reduced sizes (both modes,
unconditionally), and uniqueSize is the sum of the sizes of exactly
the records in the survivor map — with dedup enabled for any
sequence, with dedup disabled provided the records' absolute paths
are pairwise distinct (as the FileRecord data model requires).  Since
the statement holds for every input list, it holds after every
individual fold step. -/
theorem stats_conservation (l : List FileInfo) (b : Bool)
    (hd : b = false → l.Pairwise (fun a c => a.path ≠ c.path)) :
    (deduplicate l b).2.totalSize = sumSizes l ∧
    (deduplicate l b).2.uniqueSize = mapSizeSum (deduplicate l b).1 := by
  constructor
  · have := totalSize_fold l b ([], statsInit)
    simpa [deduplicate, statsInit] using this
  · cases b
    · have := uniqueSize_fold_false l ([], statsInit) (by simp [statsInit, mapSizeSum])
        (by simp [lookupKey]) (hd rfl)
      simpa [deduplicate] using this
    · have := uniqueSize_fold_true l ([], statsInit) (by simp [statsInit, mapSizeSum])
      simpa [deduplicate] using this

/-- Witness for C3 (amended) on a concrete three-record stream with
distinct paths, in no-dedup mode. -/
theorem stats_conservation_witness :
    (deduplicate [exTieA, exTieB, exSmall] false).2.totalSize =
        sumSizes [exTieA, exTieB, exSmall] ∧
    (deduplicate [exTieA, exTieB, exSmall] false).2.uniqueSize =
      mapSizeSum (deduplicate [exTieA, exTieB, exSmall] false).1 :=
  stats_conservation [exTieA, exTieB, exSmall] false (fun _ => by decide)

/-! ## No-dedup mode lemmas (C6) -/

/-- Assigning a fresh key grows the map by exactly one entry. -/
theorem setKey_length_new {α : Type} {m : List (String × α)} {k : String}
    (h : lookupKey m k = none) (v : α) :
    (setKey m k v).length = m.length + 1 := by
  induction m with
  | nil => simp [setKey]
  | cons kv rest ih =>
    obtain ⟨k₀, v₀⟩ := kv
    by_cases h₀ : k₀ = k
    · simp [lookupKey, h₀] at h
    · simp only [lookupKey, if_neg h₀] at h
      simp [setKey, h₀, ih h]

/-- In no-dedup mode the fold never disturbs a key that none of the
remaining records carries as its path. -/
theorem nodedup_fold_untouched (l : List FileInfo) (k : String) :
    ∀ st : List (String × FileInfo) × Stats, (∀ r ∈ l, r.path ≠ k) →
      lookupKey (l.foldl (reduceStep false) st).1 k = lookupKey st.1 k := by
  induction l with
  | nil => intro st _; rfl
  | cons x rest ih =>
    intro st hne
    rw [List.foldl_cons, ih _ (fun r hr => hne r (List.mem_cons_of_mem _ hr))]
    have h1 : (reduceStep false st x).1 = setKey st.1 x.path x := by
      simp [reduceStep]
    rw [h1, lookupKey_setKey, if_neg (fun hh => hne x (by simp) hh.symm)]

/-- In no-dedup mode, over records with fresh pairwise-distinct
paths, the fold adds exactly one entry per record and each record
reads back under its own path. -/
theorem nodedup_fold_entries (l : List FileInfo) :
    ∀ st : List (String × FileInfo) × Stats,
      (∀ r ∈ l, lookupKey st.1 r.path = none) →
      l.Pairwise (fun a c => a.path ≠ c.path) →
      (l.foldl (reduceStep false) st).1.length = st.1.length + l.length ∧
        ∀ r ∈ l, lookupKey (l.foldl (reduceStep false) st).1 r.path = some r := by
  induction l with
  | nil => intro st _ _; simp
  | cons x rest ih =>
    intro st hnone hpair
    have hx : lookupKey st.1 x.path = none := hnone x (by simp)
    have h1 : (reduceStep false st x).1 = setKey st.1 x.path x := by
      simp [reduceStep]
    have hfresh : ∀ r ∈ rest, lookupKey (reduceStep false st x).1 r.path = none := by
      intro r hr
      rw [h1, lookupKey_setKey]
      have hne : x.path ≠ r.path := (List.pairwise_cons.mp hpair).1 r hr
      rw [if_neg (fun hh => hne hh.symm)]
      exact hnone r (List.mem_cons_of_mem _ hr)
    obtain ⟨ihlen, ihmem⟩ := ih (reduceStep false st x) hfresh
      (List.pairwise_cons.mp hpair).2
    constructor
    · rw [List.foldl_cons, ihlen, h1, setKey_length_new hx]
      simp
      ring
    · intro r hr
      rcases List.mem_cons.mp hr with hrx | hrr
      · rw [hrx, List.foldl_cons,
          nodedup_fold_untouched rest x.path (reduceStep false st x)
            (fun r' hr' => Ne.symm ((List.pairwise_cons.mp hpair).1 r' hr')),
          h1, lookupKey_setKey, if_pos rfl]
      · rw [List.foldl_cons]
        exact ihmem r hrr

/-- In no-dedup mode every step adds the record's size to both size
counters, so their equality is invariant. -/
theorem nodedup_fold_sizes (l : List FileInfo) :
    ∀ st : List (String × FileInfo) × Stats,
      st.2.uniqueSize = st.2.totalSize →
      (l.foldl (reduceStep false) st).2.uniqueSize =
        (l.foldl (reduceStep false) st).2.totalSize := by
  induction l with
  | nil => intro st h; exact h
  | cons x rest ih =>
    intro st h
    rw [List.foldl_cons]
    apply ih
    have h2 : (reduceStep false st x).2.uniqueSize = st.2.uniqueSize + x.size := by
      simp [reduceStep, updateCounters_uniqueSize, statsAddTotals_uniqueSize]
    rw [h2, reduceStep_totalSize, h]

/-! ## C6: no-dedup mode is purely additive -/

/-- Claim C6: with deduplication disabled and pairwise-distinct
absolute paths, the final survivor map has exactly one entry per
input record, each record reads back under its own absolute path (so
no record ever replaces another), and the unique size equals the
total size. -/
theorem nodedup_additive (l : List FileInfo)
    (hd : l.Pairwise (fun a c => a.path ≠ c.path)) :
    (∀ r ∈ l, lookupKey (deduplicate l false).1 r.path = some r) ∧
    (deduplicate l false).1.length = l.length ∧
    (deduplicate l false).2.uniqueSize = (deduplicate l false).2.totalSize := by
  obtain ⟨hlen, hmem⟩ := nodedup_fold_entries l ([], statsInit)
    (by simp [lookupKey]) hd
  refine ⟨hmem, ?_, ?_⟩
  · simpa [deduplicate] using hlen
  · exact nodedup_fold_sizes l ([], statsInit) rfl

/-- Witness for C6 on a concrete two-record stream with distinct
paths. -/
theorem nodedup_additive_witness :
    (∀ r ∈ [exSmall, exBig],
        lookupKey (deduplicate [exSmall, exBig] false).1 r.path = some r) ∧
    (deduplicate [exSmall, exBig] false).1.length = [exSmall, exBig].length ∧
    (deduplicate [exSmall, exBig] false).2.uniqueSize =
      (deduplicate [exSmall, exBig] false).2.totalSize :=
  nodedup_additive [exSmall, exBig] (by decide)

/-! ## C4: fatality of configuration errors -/

/-- Counterexample to claim C4 as stated: with an existing source
root and a single worker whose exiftool initialization fails, the run
does not abort — it completes normally with an empty survivor map and
one error event. -/
theorem config_error_cex :
    runDedupModel true [false] [exTieA] true =
      .completed [] statsInit ["worker init failed"] := by decide

/-- Claim C4 (amended): a missing source root is fatal — runDedup
returns an error before any scanning, reduction or copying, and the
process exits non-zero.  A worker initialization failure is not
fatal: the failing worker emits an error event and exits, and the run
continues and completes normally (processing no records when every
worker fails to initialize). -/
theorem config_error_handling (inits : List Bool) (records : List FileInfo)
    (b : Bool) :
    runDedupModel false inits records b =
      .configError "source directory does not exist" ∧
    ∃ m s ev, runDedupModel true inits records b = .completed m s ev := by
  exact ⟨rfl, ⟨_, _, _, rfl⟩⟩

/-! ## Walk lemmas (C5, C7) -/

/-- The walk of a concatenation of sibling entries is the
concatenation of the walks. -/
theorem walkListPaths_append (excl exts : List String) (path : String)
    (a b : List FSEntry) :
    walkListPaths excl exts path (a ++ b) =
      walkListPaths excl exts path a ++ walkListPaths excl exts path b := by
  induction a with
  | nil => simp [walkListPaths]
  | cons c rest ih => simp [walkListPaths, ih]

/-- An unreadable directory contributes no paths, whether or not it
is also excluded. -/
theorem walkEntry_unreadable (excl exts : List String) (path nm : String)
    (dc : List FSEntry) :
    walkEntryPaths excl exts path (.dir nm false dc) = [] := by
  by_cases h : shouldExclude path excl <;> simp [walkEntryPaths, h]

/-! ## C5: root read failures are silent -/

/-- Counterexample to claim C5 as stated: for a source root that
exists but cannot be read, the enumeration yields no paths but also
emits no Scan error event and leaves the failure counter untouched,
in recursive and in non-recursive mode. -/
theorem walk_root_silent_cex :
    walkFilesModel exDefaultExcl exValidExts "/s" true
        (some (.dir "s" false [.file "a.jpg"])) = ⟨[], [], 0⟩ ∧
    walkFilesModel exDefaultExcl exValidExts "/s" false
        (some (.dir "s" false [.file "a.jpg"])) = ⟨[], [], 0⟩ := by decide

/-- Claim C5 (amended): a source root that cannot be read (or does
not exist) makes the enumeration yield no paths, silently — no Scan
error event is emitted and the failure counter is not incremented —
in recursive and non-recursive mode alike; an unreadable
subdirectory below the root is likewise skipped silently, its
siblings being traversed as if it were absent. -/
theorem walk_root_failure_silent (excl exts : List String) (source nm : String)
    (children : List FSEntry) (recursive : Bool) :
    walkFilesModel excl exts source recursive (some (.dir nm false children)) =
      ⟨[], [], 0⟩ ∧
    walkFilesModel excl exts source recursive none = ⟨[], [], 0⟩ ∧
    (∀ (path : String) (pre : List FSEntry) (dn : String) (dc : List FSEntry)
        (post : List FSEntry),
      walkListPaths excl exts path (pre ++ .dir dn false dc :: post) =
        walkListPaths excl exts path (pre ++ post)) := by
  refine ⟨?_, ?_, ?_⟩
  · cases recursive
    · simp [walkFilesModel]
    · simp [walkFilesModel, walkEntry_unreadable]
  · cases recursive <;> simp [walkFilesModel]
  · intro path pre dn dc post
    rw [walkListPaths_append, walkListPaths_append]
    simp [walkListPaths, walkEntry_unreadable]

mutual

/-- The recursive walk filters the reachable files (those whose
ancestor directories are all readable and non-excluded) by the
per-file exclusion and extension test — entry form. -/
theorem walk_eq_reachable_entry (excl exts : List String) (path : String)
    (e : FSEntry) :
    walkEntryPaths excl exts path e =
      (reachableEntry excl path e).filter
        (fun p => !shouldExclude p excl && exts.contains (toLowerStr (extOf p))) := by
  cases e with
  | file n =>
    by_cases h : shouldExclude path excl
    · simp [walkEntryPaths, reachableEntry, h]
    · by_cases h2 : toLowerStr (extOf path) ∈ exts <;>
        simp [walkEntryPaths, reachableEntry, h, h2]
  | dir n readable children =>
    by_cases h : shouldExclude path excl
    · simp [walkEntryPaths, reachableEntry, h]
    · cases readable
      · simp [walkEntryPaths, reachableEntry, h]
      · simp only [walkEntryPaths, reachableEntry, h, if_false, Bool.false_eq_true,
          if_true]
        exact walk_eq_reachable_list excl exts path children

/-- The recursive walk filters the reachable files — sibling-list
form. -/
theorem walk_eq_reachable_list (excl exts : List String) (path : String)
    (cs : List FSEntry) :
    walkListPaths excl exts path cs =
      (reachableList excl path cs).filter
        (fun p => !shouldExclude p excl && exts.contains (toLowerStr (extOf p))) := by
  cases cs with
  | nil => simp [walkListPaths, reachableList]
  | cons c rest =>
    simp only [walkListPaths, reachableList]
    rw [List.filter_append, walk_eq_reachable_entry excl exts (joinPath path (entryName c)) c,
      walk_eq_reachable_list excl exts path rest]

end

/-! ## C7: what the enumerator yields -/

/-- Counterexample to claim C7 as stated: in the spec's own example
tree, /.git/x.jpg passes the claim's file-level filter (it is not
excluded by any pattern and its lowercased extension is accepted),
yet the enumeration does not yield it — the walk yields only
/photos/y.jpg — so the enumerator does not yield exactly the
file-level-filtered paths. -/
theorem enumerator_filter_cex :
    shouldExclude "/.git/x.jpg" exDefaultExcl = false ∧
    exValidExts.contains (toLowerStr (extOf "/.git/x.jpg")) = true ∧
    (walkFilesModel exDefaultExcl exValidExts "/" true (some exTree)).paths =
      ["/photos/y.jpg"] := by decide

/-- Claim C7 (amended): the recursive enumeration yields exactly
those file paths that pass the file-level filter (lowercased
extension in the accepted set and no exclusion pattern glob-matching
the base name or occurring as a substring of the path) among the
files reachable through readable, non-excluded directories — an
excluded directory prunes its whole subtree without descent; with
the default pattern set, the example tree holding /.git/x.jpg and
/photos/y.jpg enumerates only /photos/y.jpg, because the directory
whose base name starts with a dot is pruned. -/
theorem enumerator_yield_char :
    (∀ (excl exts : List String) (path : String) (e : FSEntry),
      walkEntryPaths excl exts path e =
        (reachableEntry excl path e).filter
          (fun p => !shouldExclude p excl && exts.contains (toLowerStr (extOf p)))) ∧
    (walkFilesModel exDefaultExcl exValidExts "/" true (some exTree)).paths =
      ["/photos/y.jpg"] :=
  ⟨walk_eq_reachable_entry, by decide⟩

/-! ## C8: destination path construction -/

/-- Claim C8: for every survivor the copy stage computes the
destination as the destination root joined with the file's base name
in flatten mode, and joined with the record's relative path in
tree-preserving mode; concretely, /src/a/b/img.jpg copies to
dest/img.jpg when flattened and to dest/a/b/img.jpg otherwise, and
/src/c/img2.jpg to dest/img2.jpg and dest/c/img2.jpg. -/
theorem copy_dest_path :
    (∀ (dest : String) (fi : FileInfo),
      destPathOf true dest fi = joinPath dest (baseOf fi.path) ∧
      destPathOf false dest fi = joinPath dest fi.relPath) ∧
    destPathOf true "dest" exNested = "dest/img.jpg" ∧
    destPathOf false "dest" exNested = "dest/a/b/img.jpg" ∧
    destPathOf true "dest" exNested2 = "dest/img2.jpg" ∧
    destPathOf false "dest" exNested2 = "dest/c/img2.jpg" :=
  ⟨fun _ _ => ⟨rfl, rfl⟩, by decide, by decide, by decide, by decide⟩

/-! ## C9: silent overwrite at the destination -/

/-- Claim C9 (implicit): destination creation truncates an existing
file, so a copy over an occupied destination path raises no error,
leaves the Copy-failure counter at zero and counts as a successful
copy; in flatten mode with dedup disabled, the two survivors sharing
the base name img both count as copied while only one body remains
at dest/img.jpg (here the later copy's content, over a pre-existing
file). -/
theorem copy_overwrite_silent :
    (deduplicate [exCopyA, exCopyB] false).1.length = 2 ∧
    copyFilesModel [("/src/a/img.jpg", "A"), ("/src/b/img.jpg", "B")]
        ((deduplicate [exCopyA, exCopyB] false).1.map (fun kv => kv.2))
        "dest" true ⟨[("dest/img.jpg", "OLD")], 0, 0⟩ =
      ⟨[("dest/img.jpg", "B")], 2, 0⟩ := by decide

/-! ## C10: case-sensitive group keys -/

/-- Claim C10 (implicit): the duplicate-group key keeps letter case
and strips only the final extension — IMG_001.JPG and img_001.jpg
both pass the case-insensitive extension filter yet land in the
distinct groups IMG_001 and img_001 and are never deduplicated
against each other, and a.b.jpg groups under the key a.b. -/
theorem group_key_case_sensitive :
    exValidExts.contains (toLowerStr (extOf exUpper.path)) = true ∧
    exValidExts.contains (toLowerStr (extOf exLower.path)) = true ∧
    exUpper.baseName = "IMG_001" ∧
    exLower.baseName = "img_001" ∧
    exUpper.baseName ≠ exLower.baseName ∧
    (deduplicate [exUpper, exLower] true).1 =
      [("IMG_001", exUpper), ("img_001", exLower)] ∧
    (workerRecord exImageExts "/p" "/p/a.b.jpg" 1 false 0).baseName = "a.b" := by
  decide
